import Mathlib

/-!
Verification of `src/service-worker.js` (vofo-music offline cache
service worker) against its natural-language specification.

The worker's world is the browser CacheStorage: a list of named cache
buckets, each mapping request identity (URL + method) to a stored
response.  Network access is a parameter (`String → Option Response`
for install-time URL fetches, `Request → Except String Response` for
fetch-time requests), so that theorems quantify over every network
behaviour.  Stateful handlers are embedded in explicit state-passing
style.
-/

/-- A request identity: URL plus HTTP method (the implicit key of a
cache bucket per the Cache API). -/
structure Request where
  url : String
  method : String
deriving DecidableEq, Repr

/-- A stored response, kept as its raw bytes so that "byte-for-byte
equal" is plain equality. -/
structure Response where
  body : List Nat
deriving DecidableEq, Repr

/-- One cache bucket: an association list from request identity to
stored response. -/
abbrev Cache := List (Request × Response)

/-- The CacheStorage: named buckets, in enumeration order. -/
abbrev CacheStorage := List (String × Cache)

/-- `const CACHE_NAME = 'vofo-music-v1'` (service-worker.js line 2). -/
def CACHE_NAME : String := "vofo-music-v1"

/-- `const urlsToCache = [...]` (service-worker.js lines 3-8). -/
def urlsToCache : List String :=
  [ "/",
    "/index.html",
    "/manifest.json",
    "https://fonts.googleapis.com/css2?family=Cormorant+Garamond:ital,wght@0,400;0,500;0,600;1,400&family=Montserrat:wght@300;400;500;600&display=swap" ]

/-- `Cache.match` with default options, per the Cache API: a query
whose method is not GET matches nothing; otherwise the first entry
with the same URL is returned. -/
def matchCache (c : Cache) (r : Request) : Option Response :=
  if r.method = "GET" then
    (c.find? (fun e => e.1.url = r.url)).map (fun e => e.2)
  else
    none

/-- `caches.match(request)`: search the buckets in enumeration order,
returning the first per-bucket match. -/
def cachesMatch (s : CacheStorage) (r : Request) : Option Response :=
  match s with
  | [] => none
  | (_, c) :: rest =>
    match matchCache c r with
    | some resp => some resp
    | none => cachesMatch rest r

/-- Look up a bucket by name (`caches` keeps names unique; on a list
model the first hit is the bucket). -/
def lookupBucket (s : CacheStorage) (name : String) : Option Cache :=
  (s.find? (fun e => e.1 = name)).map (fun e => e.2)

/-- The fetch listener (service-worker.js lines 17-27):
`caches.match(event.request)` then either the cached response (no
network touch) or `fetch(event.request)` passed through unchanged.
Returns the response promise's outcome, whether the network was
called, and the cache storage after the handler (state-passing). -/
def handleFetch (netf : Request → Except String Response)
    (s : CacheStorage) (r : Request) :
    Except String Response × Bool × CacheStorage :=
  match cachesMatch s r with
  | some resp => (Except.ok resp, false, s)
  | none => (netf r, true, s)

/-- `Cache.put` for a GET request: the Cache API removes every entry
matching the request's URL, then appends the new pair. -/
def putEntry (c : Cache) (r : Request) (resp : Response) : Cache :=
  c.filter (fun e => ¬ e.1.url = r.url) ++ [(r, resp)]

/-- Fetch every URL of a list; the whole batch fails if any single
fetch fails (this is the all-or-nothing first half of
`cache.addAll`). -/
def fetchAll (net : String → Option Response) :
    List String → Option (List (String × Response))
  | [] => some []
  | u :: us =>
    match net u with
    | none => none
    | some resp => (fetchAll net us).map (fun rest => (u, resp) :: rest)

/-- Commit a batch of fetched pairs into a bucket as GET entries, in
order (the second half of `cache.addAll`). -/
def addPairs (c : Cache) (ps : List (String × Response)) : Cache :=
  ps.foldl (fun acc p => putEntry acc ⟨p.1, "GET"⟩ p.2) c

/-- `cache.addAll(urls)`: fetch every URL, then commit all of them, or
commit nothing and fail. -/
def addAll (net : String → Option Response) (urls : List String)
    (c : Cache) : Option Cache :=
  (fetchAll net urls).map (fun ps => addPairs c ps)

/-- `caches.open(name)`: return the named bucket, creating an empty one
(a committed side effect) if absent. -/
def openCache (s : CacheStorage) (name : String) : CacheStorage × Cache :=
  match lookupBucket s name with
  | some c => (s, c)
  | none => (s ++ [(name, [])], [])

/-- Replace the contents of the named bucket. -/
def setBucket (s : CacheStorage) (name : String) (c : Cache) :
    CacheStorage :=
  s.map (fun e => if e.1 = name then (name, c) else e)

/-- The install listener (service-worker.js lines 10-15), with the
bucket name as a parameter so that re-deploys under a new version
label can be stated: `caches.open(name).then(cache =>
cache.addAll(urlsToCache))` under `event.waitUntil`.  Returns whether
installation succeeded and the cache storage afterwards. -/
def installW (name : String) (net : String → Option Response)
    (s : CacheStorage) : Bool × CacheStorage :=
  let opened := openCache s name
  match addAll net urlsToCache opened.2 with
  | some c => (true, setBucket opened.1 name c)
  | none => (false, opened.1)

/-- The install listener as shipped, on `CACHE_NAME`. -/
def installHandler (net : String → Option Response) (s : CacheStorage) :
    Bool × CacheStorage :=
  installW CACHE_NAME net s

/-- The activate listener (service-worker.js lines 29-41), with the
surviving bucket name as a parameter: enumerate all bucket names and
delete every bucket whose name differs from the version label. -/
def activateW (name : String) (s : CacheStorage) : CacheStorage :=
  s.filter (fun e => e.1 = name)

/-- The activate listener as shipped, on `CACHE_NAME`. -/
def activateHandler (s : CacheStorage) : CacheStorage :=
  activateW CACHE_NAME s

/-! Generic association-list lemmas used by the handler proofs. -/

theorem find?_append_eq {α : Type} (p : α → Bool) (l1 l2 : List α) :
    (l1 ++ l2).find? p =
      match l1.find? p with
      | some x => some x
      | none => l2.find? p := by
  induction l1 with
  | nil => rfl
  | cons a t ih =>
    cases hp : p a <;> simp [List.find?_cons, hp, ih]

theorem find?_filter_of_imp {α : Type} (p q : α → Bool) (l : List α)
    (h : ∀ x, p x = true → q x = true) :
    (l.filter q).find? p = l.find? p := by
  induction l with
  | nil => rfl
  | cons a t ih =>
    cases hq : q a
    · have hp : p a = false := by
        cases hpa : p a
        · rfl
        · rw [h a hpa] at hq; cases hq
      simp [List.filter_cons, hq, List.find?_cons, hp, ih]
    · cases hp : p a <;> simp [List.filter_cons, hq, List.find?_cons, hp, ih]

/-! Lemmas about a single bucket under `put`. -/

theorem matchCache_putEntry_self (c : Cache) (u : String) (resp : Response) :
    matchCache (putEntry c ⟨u, "GET"⟩ resp) ⟨u, "GET"⟩ = some resp := by
  unfold matchCache putEntry
  rw [if_pos rfl, find?_append_eq]
  have h1 : (c.filter fun e => ¬ e.1.url = u).find?
      (fun e => e.1.url = Request.url ⟨u, "GET"⟩) = none := by
    rw [List.find?_eq_none]
    intro x hx
    have h2 := (List.mem_filter.mp hx).2
    simp at h2 ⊢
    exact h2
  rw [h1]
  simp [List.find?_cons]

theorem matchCache_putEntry_ne (c : Cache) (v : String) (resp : Response)
    (r : Request) (h : ¬ r.url = v) :
    matchCache (putEntry c ⟨v, "GET"⟩ resp) r = matchCache c r := by
  unfold matchCache putEntry
  by_cases hm : r.method = "GET"
  · rw [if_pos hm, if_pos hm, find?_append_eq]
    rw [find?_filter_of_imp (fun e => e.1.url = r.url) (fun e => ¬ e.1.url = v) c
      (by intro x hx; simp at hx ⊢; rw [hx]; exact h)]
    cases hf : c.find? (fun e => e.1.url = r.url) with
    | some x => simp
    | none =>
      have hv : ¬ (v = r.url) := fun hvr => h (hvr ▸ rfl)
      simp [List.find?_cons, hv]
  · rw [if_neg hm, if_neg hm]

theorem matchCache_addPairs_of_absent (c : Cache)
    (ps : List (String × Response)) (r : Request)
    (h : ∀ p ∈ ps, ¬ r.url = p.1) :
    matchCache (addPairs c ps) r = matchCache c r := by
  induction ps generalizing c with
  | nil => rfl
  | cons p rest ih =>
    have hstep : addPairs c (p :: rest)
        = addPairs (putEntry c ⟨p.1, "GET"⟩ p.2) rest := rfl
    rw [hstep, ih _ (fun q hq => h q (List.mem_cons_of_mem _ hq)),
      matchCache_putEntry_ne _ _ _ _ (h p (List.mem_cons_self _ _))]

theorem matchCache_addPairs_of_mem (c : Cache)
    (ps : List (String × Response)) (u : String) (resp : Response)
    (hmem : (u, resp) ∈ ps) (hnodup : (ps.map Prod.fst).Nodup) :
    matchCache (addPairs c ps) ⟨u, "GET"⟩ = some resp := by
  induction ps generalizing c with
  | nil => cases hmem
  | cons p rest ih =>
    rw [List.map_cons] at hnodup
    have hnd := List.nodup_cons.mp hnodup
    rcases List.mem_cons.mp hmem with heq | hmem2
    · subst heq
      have habs : ∀ q ∈ rest, ¬ (Request.url ⟨u, "GET"⟩) = q.1 := by
        intro q hq hqe
        have hq1 : q.1 ∈ List.map Prod.fst rest := List.mem_map_of_mem Prod.fst hq
        have hue : (u, resp).1 = q.1 := hqe
        have hq2 : (u, resp).1 ∈ List.map Prod.fst rest := by rw [hue]; exact hq1
        exact hnd.1 hq2
      have hstep : addPairs c ((u, resp) :: rest)
          = addPairs (putEntry c ⟨u, "GET"⟩ resp) rest := rfl
      rw [hstep, matchCache_addPairs_of_absent _ _ _ habs,
        matchCache_putEntry_self]
    · exact ih _ hmem2 hnd.2

/-! Lemmas about the batch fetch. -/

theorem fetchAll_spec (net : String → Option Response) (urls : List String)
    (ps : List (String × Response)) (h : fetchAll net urls = some ps) :
    ps.map Prod.fst = urls ∧ ∀ p ∈ ps, net p.1 = some p.2 := by
  induction urls generalizing ps with
  | nil =>
    simp only [fetchAll, Option.some.injEq] at h
    subst h
    exact ⟨rfl, by intro p hp; cases hp⟩
  | cons u us ih =>
    cases hn : net u with
    | none => rw [fetchAll, hn] at h; cases h
    | some resp =>
      rw [fetchAll, hn] at h
      rcases Option.map_eq_some'.mp h with ⟨rest, hrest, hps⟩
      subst hps
      rcases ih rest hrest with ⟨hmap, hall⟩
      refine ⟨by simp [hmap], ?_⟩
      intro p hp
      rcases List.mem_cons.mp hp with rfl | hp2
      · exact hn
      · exact hall p hp2

theorem fetchAll_of_failure (net : String → Option Response)
    (urls : List String) (u : String) (hu : u ∈ urls)
    (hn : net u = none) : fetchAll net urls = none := by
  induction urls with
  | nil => cases hu
  | cons v vs ih =>
    rcases List.mem_cons.mp hu with rfl | hu2
    · rw [fetchAll, hn]
    · cases hv : net v
      · rw [fetchAll, hv]
      · rw [fetchAll, hv, ih hu2]; rfl

/-- C1: a request matching a cached entry is answered from the cache and
the network is not called. -/
theorem handleFetch_cached (netf : Request → Except String Response)
    (s : CacheStorage) (r : Request) (resp : Response)
    (h : cachesMatch s r = some resp) :
    handleFetch netf s r = (Except.ok resp, false, s) := by
  simp [handleFetch, h]

/-- Witness for `handleFetch_cached` at a concrete storage and request. -/
theorem handleFetch_cached_witness :
    cachesMatch [(CACHE_NAME, [(⟨"/", "GET"⟩, ⟨[1, 2, 3]⟩)])] ⟨"/", "GET"⟩
      = some ⟨[1, 2, 3]⟩ ∧
    handleFetch (fun _ => Except.error "offline")
      [(CACHE_NAME, [(⟨"/", "GET"⟩, ⟨[1, 2, 3]⟩)])] ⟨"/", "GET"⟩
      = (Except.ok ⟨[1, 2, 3]⟩, false,
         [(CACHE_NAME, [(⟨"/", "GET"⟩, ⟨[1, 2, 3]⟩)])]) :=
  ⟨by decide,
   handleFetch_cached (fun _ => Except.error "offline") _ _ _ (by decide)⟩

/-- C2: a request matching no cached entry is delegated to the network
and the network outcome — success or failure — is returned unchanged. -/
theorem handleFetch_uncached (netf : Request → Except String Response)
    (s : CacheStorage) (r : Request)
    (h : cachesMatch s r = none) :
    handleFetch netf s r = (netf r, true, s) := by
  simp [handleFetch, h]

/-- Witness for `handleFetch_uncached`: an empty storage and a failing
network, whose error is passed through. -/
theorem handleFetch_uncached_witness :
    cachesMatch [] ⟨"/absent", "GET"⟩ = none ∧
    handleFetch (fun _ => Except.error "net down") [] ⟨"/absent", "GET"⟩
      = (Except.error "net down", true, []) :=
  ⟨by decide,
   handleFetch_uncached (fun _ => Except.error "net down") [] _ (by decide)⟩

/-- C8: the fetch path never mutates cache storage. -/
theorem handleFetch_no_write (netf : Request → Except String Response)
    (s : CacheStorage) (r : Request) :
    (handleFetch netf s r).2.2 = s := by
  unfold handleFetch
  cases cachesMatch s r <;> rfl

/-! Lemmas about bucket lookup under `caches.open` and bucket update. -/

theorem lookupBucket_append_of_none (s t : CacheStorage) (n : String)
    (h : lookupBucket s n = none) :
    lookupBucket (s ++ t) n = lookupBucket t n := by
  unfold lookupBucket at *
  rw [find?_append_eq, Option.map_eq_none'.mp h]

theorem openCache_self (s : CacheStorage) (name : String) :
    lookupBucket (openCache s name).1 name
      = some ((lookupBucket s name).getD []) := by
  unfold openCache
  cases h : lookupBucket s name with
  | some c => simpa using h
  | none =>
    rw [lookupBucket_append_of_none s _ name h]
    simp [lookupBucket, List.find?_cons]

theorem openCache_other (s : CacheStorage) (name n : String)
    (h : ¬ n = name) :
    lookupBucket (openCache s name).1 n = lookupBucket s n := by
  unfold openCache
  cases hl : lookupBucket s name with
  | some c => rfl
  | none =>
    rw [lookupBucket, find?_append_eq]
    cases hf : s.find? (fun e => e.1 = n) with
    | some x => simp [lookupBucket, hf]
    | none =>
      have hne : ¬ name = n := fun hx => h hx.symm
      simp [lookupBucket, hf, List.find?_cons, hne]

theorem lookupBucket_setBucket_self (s : CacheStorage) (name : String)
    (c : Cache) (h : ¬ lookupBucket s name = none) :
    lookupBucket (setBucket s name c) name = some c := by
  induction s with
  | nil => exact absurd rfl h
  | cons e t ih =>
    by_cases he : e.1 = name
    · simp [setBucket, lookupBucket, List.find?_cons, he]
    · have hhead : lookupBucket (e :: t) name = lookupBucket t name := by
        simp [lookupBucket, List.find?_cons, he]
      rw [hhead] at h
      have hres := ih h
      simpa [setBucket, lookupBucket, List.find?_cons, he] using hres

theorem lookupBucket_setBucket_other (s : CacheStorage) (name n : String)
    (c : Cache) (h : ¬ n = name) :
    lookupBucket (setBucket s name c) n = lookupBucket s n := by
  have hne : ¬ name = n := fun hx => h hx.symm
  induction s with
  | nil => rfl
  | cons e t ih =>
    have hstep : setBucket (e :: t) name c
        = (if e.1 = name then (name, c) else e) :: setBucket t name c := rfl
    rw [hstep]
    by_cases he : e.1 = name
    · rw [if_pos he]
      have h1 : lookupBucket ((name, c) :: setBucket t name c) n
          = lookupBucket (setBucket t name c) n := by
        simp [lookupBucket, List.find?_cons, hne]
      have h2 : lookupBucket (e :: t) n = lookupBucket t n := by
        have he2 : ¬ e.1 = n := by rw [he]; exact hne
        simp [lookupBucket, List.find?_cons, he2]
      rw [h1, h2]
      exact ih
    · rw [if_neg he]
      by_cases hen : e.1 = n
      · have h1 : lookupBucket (e :: setBucket t name c) n = some e.2 := by
          simp [lookupBucket, List.find?_cons, hen]
        have h2 : lookupBucket (e :: t) n = some e.2 := by
          simp [lookupBucket, List.find?_cons, hen]
        rw [h1, h2]
      · have h1 : lookupBucket (e :: setBucket t name c) n
            = lookupBucket (setBucket t name c) n := by
          simp [lookupBucket, List.find?_cons, hen]
        have h2 : lookupBucket (e :: t) n = lookupBucket t n := by
          simp [lookupBucket, List.find?_cons, hen]
        rw [h1, h2]
        exact ih

theorem setBucket_map_fst (s : CacheStorage) (name : String) (c : Cache) :
    (setBucket s name c).map Prod.fst = s.map Prod.fst := by
  induction s with
  | nil => rfl
  | cons e t ih =>
    by_cases he : e.1 = name <;> simp [setBucket, he, ih] <;>
      simpa [setBucket] using ih

/-- C5: after the activate handler, every bucket whose name differs from
the current version label `CACHE_NAME` has been deleted. -/
theorem activate_removes_stale (s : CacheStorage) (n : String)
    (h : ¬ n = CACHE_NAME) :
    lookupBucket (activateHandler s) n = none := by
  unfold activateHandler activateW lookupBucket
  have hnone : (s.filter fun e => e.1 = CACHE_NAME).find?
      (fun e => e.1 = n) = none := by
    rw [List.find?_eq_none]
    intro x hx
    have hx2 := (List.mem_filter.mp hx).2
    simp at hx2 ⊢
    rw [hx2]
    exact fun hc => h hc.symm
  rw [hnone]
  rfl

/-- Witness for `activate_removes_stale` on a storage holding one stale
and one current bucket. -/
theorem activate_removes_stale_witness :
    ¬ "vofo-music-v0" = CACHE_NAME ∧
    lookupBucket
      (activateHandler [("vofo-music-v0", []), (CACHE_NAME, [])])
      "vofo-music-v0" = none :=
  ⟨by decide,
   activate_removes_stale [("vofo-music-v0", []), (CACHE_NAME, [])]
     "vofo-music-v0" (by decide)⟩

/-- C6: the activate handler leaves the current bucket's contents
untouched, for every cache-storage state. -/
theorem activate_keeps_current (s : CacheStorage) :
    lookupBucket (activateHandler s) CACHE_NAME
      = lookupBucket s CACHE_NAME := by
  unfold activateHandler activateW lookupBucket
  rw [find?_filter_of_imp _ _ _ (fun x hx => hx)]

/-- C10: running the activate handler twice yields the same storage as
running it once. -/
theorem activate_idempotent (s : CacheStorage) :
    activateHandler (activateHandler s) = activateHandler s := by
  unfold activateHandler activateW
  induction s with
  | nil => rfl
  | cons e t ih =>
    by_cases he : e.1 = CACHE_NAME <;> simp [List.filter_cons, he, ih]

/-- C9: a request whose method is not GET never matches the cache (the
Cache API's default match options match nothing for non-GET queries),
so the handler always forwards it to the network. -/
theorem fetch_non_get_bypasses_cache
    (netf : Request → Except String Response) (s : CacheStorage)
    (r : Request) (h : ¬ r.method = "GET") :
    cachesMatch s r = none ∧ handleFetch netf s r = (netf r, true, s) := by
  have hm : cachesMatch s r = none := by
    induction s with
    | nil => rfl
    | cons e t ih =>
      obtain ⟨nm, c⟩ := e
      simp [cachesMatch, matchCache, h, ih]
  exact ⟨hm, by simp [handleFetch, hm]⟩

/-- Witness for `fetch_non_get_bypasses_cache`: a POST to a URL that is
cached (as a GET entry) still goes to the network. -/
theorem fetch_non_get_bypasses_cache_witness :
    ¬ (Request.method ⟨"/x", "POST"⟩) = "GET" ∧
    (cachesMatch [(CACHE_NAME, [(⟨"/x", "GET"⟩, ⟨[5]⟩)])] ⟨"/x", "POST"⟩
        = none ∧
      handleFetch (fun _ => Except.ok ⟨[9]⟩)
        [(CACHE_NAME, [(⟨"/x", "GET"⟩, ⟨[5]⟩)])] ⟨"/x", "POST"⟩
        = (Except.ok ⟨[9]⟩, true,
           [(CACHE_NAME, [(⟨"/x", "GET"⟩, ⟨[5]⟩)])])) :=
  ⟨by decide,
   fetch_non_get_bypasses_cache (fun _ => Except.ok ⟨[9]⟩)
     [(CACHE_NAME, [(⟨"/x", "GET"⟩, ⟨[5]⟩)])] ⟨"/x", "POST"⟩ (by decide)⟩

/-- C3: if the install handler succeeds, every URL of `urlsToCache` is
present in the bucket named `CACHE_NAME`, and looking it up there
returns exactly the response the network yielded at install time. -/
theorem install_populates_cache (net : String → Option Response)
    (s : CacheStorage) (h : (installHandler net s).1 = true) :
    ∀ u ∈ urlsToCache, ∃ c resp,
      lookupBucket (installHandler net s).2 CACHE_NAME = some c ∧
      net u = some resp ∧
      matchCache c ⟨u, "GET"⟩ = some resp := by
  intro u hu
  cases hf : addAll net urlsToCache (openCache s CACHE_NAME).2 with
  | none => simp [installHandler, installW, hf] at h
  | some cnew =>
    simp only [installHandler, installW, hf]
    unfold addAll at hf
    rcases Option.map_eq_some'.mp hf with ⟨ps, hps, hcnew⟩
    rcases fetchAll_spec net urlsToCache ps hps with ⟨hmap, hnet⟩
    rw [← hmap] at hu
    rcases List.mem_map.mp hu with ⟨p, hp, hpu⟩
    refine ⟨cnew, p.2, ?_, ?_, ?_⟩
    · apply lookupBucket_setBucket_self
      rw [openCache_self]
      simp
    · rw [← hpu]
      exact hnet p hp
    · rw [← hcnew, ← hpu]
      have hmem : (p.1, p.2) ∈ ps := by
        rw [Prod.mk.eta]
        exact hp
      have hnd : (ps.map Prod.fst).Nodup := by
        rw [hmap]
        decide
      exact matchCache_addPairs_of_mem _ _ _ _ hmem hnd

/-- Witness for `install_populates_cache` with an always-succeeding
network and an empty starting storage, checked at the URL `/`. -/
theorem install_populates_cache_witness :
    (installHandler (fun _ => some ⟨[7]⟩) []).1 = true ∧
    (∃ c resp,
      lookupBucket (installHandler (fun _ => some ⟨[7]⟩) []).2 CACHE_NAME
        = some c ∧
      (fun _ => some (⟨[7]⟩ : Response)) "/" = some resp ∧
      matchCache c ⟨"/", "GET"⟩ = some resp) :=
  ⟨by decide,
   install_populates_cache (fun _ => some ⟨[7]⟩) [] (by decide) "/"
     (by decide)⟩

/-- C4: if any URL of the fixed list fails to fetch, installation fails
as a whole, the current bucket keeps exactly its prior contents (empty
if it was just created) — no subset of the list is committed — and no
other bucket is touched. -/
theorem install_atomic_on_failure (net : String → Option Response)
    (s : CacheStorage) (u : String) (hu : u ∈ urlsToCache)
    (hn : net u = none) :
    (installHandler net s).1 = false ∧
    lookupBucket (installHandler net s).2 CACHE_NAME
      = some ((lookupBucket s CACHE_NAME).getD []) ∧
    ∀ n, ¬ n = CACHE_NAME →
      lookupBucket (installHandler net s).2 n = lookupBucket s n := by
  have hfa : fetchAll net urlsToCache = none :=
    fetchAll_of_failure net urlsToCache u hu hn
  have hadd : addAll net urlsToCache (openCache s CACHE_NAME).2 = none := by
    unfold addAll
    rw [hfa]
    rfl
  refine ⟨?_, ?_, ?_⟩
  · simp [installHandler, installW, hadd]
  · simp only [installHandler, installW, hadd]
    exact openCache_self s CACHE_NAME
  · intro n hn2
    simp only [installHandler, installW, hadd]
    exact openCache_other s CACHE_NAME n hn2

/-- Witness for `install_atomic_on_failure` with a dead network and an
empty starting storage, checked at the stale name `other`. -/
theorem install_atomic_on_failure_witness :
    "/" ∈ urlsToCache ∧
    (installHandler (fun _ => none) []).1 = false ∧
    lookupBucket (installHandler (fun _ => none) []).2 CACHE_NAME
      = some ((lookupBucket [] CACHE_NAME).getD []) ∧
    lookupBucket (installHandler (fun _ => none) []).2 "other"
      = lookupBucket [] "other" :=
  ⟨by decide,
   (install_atomic_on_failure (fun _ => none) [] "/" (by decide) rfl).1,
   (install_atomic_on_failure (fun _ => none) [] "/" (by decide) rfl).2.1,
   (install_atomic_on_failure (fun _ => none) [] "/" (by decide) rfl).2.2
     "other" (by decide)⟩

/-- C7: starting from any storage, installing under a fresh version
label and then activating leaves exactly one bucket, the one named by
the new label; every previously existing bucket is removed. -/
theorem redeploy_leaves_single_bucket (net : String → Option Response)
    (s : CacheStorage) (v : String)
    (hfresh : ¬ v ∈ s.map Prod.fst)
    (hok : (installW v net s).1 = true) :
    ∃ c, activateW v (installW v net s).2 = [(v, c)] := by
  have hlook : lookupBucket s v = none := by
    unfold lookupBucket
    have hfind : s.find? (fun e => e.1 = v) = none := by
      rw [List.find?_eq_none]
      intro e he hev
      simp at hev
      exact hfresh (hev ▸ List.mem_map_of_mem Prod.fst he)
    rw [hfind]
    rfl
  have hopen : openCache s v = (s ++ [(v, [])], []) := by
    unfold openCache
    rw [hlook]
  cases hf : addAll net urlsToCache (openCache s v).2 with
  | none => simp [installW, hf] at hok
  | some cnew =>
    refine ⟨cnew, ?_⟩
    simp only [installW, hf]
    rw [hopen]
    have hsplit : setBucket (s ++ [(v, [])]) v cnew
        = setBucket s v cnew ++ [(v, cnew)] := by
      unfold setBucket
      rw [List.map_append]
      simp
    rw [hsplit]
    unfold activateW
    rw [List.filter_append]
    have h1 : (setBucket s v cnew).filter (fun e => e.1 = v) = [] := by
      rw [List.filter_eq_nil_iff]
      intro e he
      have hmem : e.1 ∈ (setBucket s v cnew).map Prod.fst :=
        List.mem_map_of_mem Prod.fst he
      rw [setBucket_map_fst] at hmem
      simp
      exact fun hev => hfresh (hev ▸ hmem)
    rw [h1]
    simp [List.filter_cons]

/-- Witness for `redeploy_leaves_single_bucket`: a storage holding only
the v0 bucket, redeployed under the label `vofo-music-v2` with a live
network. -/
theorem redeploy_leaves_single_bucket_witness :
    ¬ "vofo-music-v2" ∈
      ([("vofo-music-v0", [])] : CacheStorage).map Prod.fst ∧
    (installW "vofo-music-v2" (fun _ => some ⟨[0]⟩)
      [("vofo-music-v0", [])]).1 = true ∧
    ∃ c, activateW "vofo-music-v2"
        (installW "vofo-music-v2" (fun _ => some ⟨[0]⟩)
          [("vofo-music-v0", [])]).2
      = [("vofo-music-v2", c)] :=
  ⟨by decide, by decide,
   redeploy_leaves_single_bucket (fun _ => some ⟨[0]⟩)
     [("vofo-music-v0", [])] "vofo-music-v2" (by decide) (by decide)⟩

/-- C1 counterexample: when an older bucket, enumerated before the
current one, also holds an entry for the same URL, `caches.match`
returns the older bucket's response — not the one stored in the bucket
named `CACHE_NAME` — so the handler does not resolve with the current
bucket's stored response. -/
theorem handleFetch_current_bucket_counterexample :
    matchCache
      ((lookupBucket
          [("vofo-music-v0", [(⟨"/", "GET"⟩, ⟨[0]⟩)]),
           (CACHE_NAME, [(⟨"/", "GET"⟩, ⟨[1]⟩)])] CACHE_NAME).getD [])
      ⟨"/", "GET"⟩ = some ⟨[1]⟩ ∧
    (handleFetch (fun _ => Except.error "offline")
        [("vofo-music-v0", [(⟨"/", "GET"⟩, ⟨[0]⟩)]),
         (CACHE_NAME, [(⟨"/", "GET"⟩, ⟨[1]⟩)])] ⟨"/", "GET"⟩).1
      = Except.ok ⟨[0]⟩ ∧
    ¬ (Response.mk [0]) = ⟨[1]⟩ :=
  ⟨by decide, rfl, by decide⟩
